import Mathlib

/-!
Verification development for `url-generator-dpp/generate_urls.py`.

The file shallowly embeds the pure data-transformation core of the script:
product-key normalization, the left outer join of order rows onto EAN rows,
URL synthesis, the matched/unmatched partition (`build_urls`), column
resolution (`get_column`), the sheet-writing step of `process_pair`, and
file-pair discovery (`find_file_pairs`).

Modelling conventions:
* a pandas `DataFrame` of normalized orders is a `List OrderRecord`, a frame
  of normalized EAN rows is a `List EanRecord`;
* `Series.str.strip` / Python `str.strip()` is `trimStr` (ASCII whitespace,
  which covers every input the script handles);
* Python `str.lower()` is `lowerStr` (ASCII case folding, likewise);
* `DataFrame.merge(..., how="left")` preserves left-row order and expands
  each left row by its right matches in right-row order, which is exactly
  `List.flatMap`;
* `DataFrame.drop_duplicates()` keeps the first occurrence of each row, which
  is `dropDuplicates` below;
* `DataFrame.sort_values(["product", "purchase_order", "ean"])` is modelled
  as a stable sort (`List.insertionSort`) by the lexicographic order `rowLE`
  on that key triple, with Python's code-point string comparison.
-/

namespace GenerateUrls

/-- ASCII lower-casing of a string, character by character, as Python's
`str.lower()` behaves on the ASCII data this script processes. -/
def lowerStr (s : String) : String :=
  String.mk (s.data.map Char.toLower)

/-- Whitespace trimming on both ends, as Python's `str.strip()` behaves on
the ASCII data this script processes. -/
def trimStr (s : String) : String :=
  String.mk (((s.data.dropWhile Char.isWhitespace).reverse.dropWhile
    Char.isWhitespace).reverse)

/-- Stripping of all trailing slash characters: `str.rstrip("/")`, the
`normalize_base` helper inside `build_urls`. -/
def rstripSlash (s : String) : String :=
  String.mk ((s.data.reverse.dropWhile (fun c => c == '/')).reverse)

/-- Suffix test on strings, by characters (`str.endswith`). -/
def strEndsWith (s suffix : String) : Bool :=
  suffix.data.isSuffixOf s.data

/-- Removal of the last `n` characters of a string (`name[: -n]`). -/
def dropRightStr (s : String) (n : Nat) : String :=
  String.mk (s.data.take (s.data.length - n))

/-- Normalized order row as produced by `read_orders`: the three required
columns, each a trimmed string. -/
structure OrderRecord where
  purchase_order : String
  product : String
  base_url : String
deriving DecidableEq

/-- Normalized EAN row as produced by `read_eans`. -/
structure EanRecord where
  product : String
  ean : String
deriving DecidableEq

/-- Row of the `urls` output table of `build_urls`, in column order
`purchase_order, product, base_url, ean, url`. -/
structure MatchedRow where
  purchase_order : String
  product : String
  base_url : String
  ean : String
  url : String
deriving DecidableEq

/-- Row of the `unmatched_orders` output table of `build_urls`. -/
structure UnmatchedRow where
  purchase_order : String
  product : String
  base_url : String
deriving DecidableEq

/-- Join key of `build_urls`: `series.str.strip().str.lower()` applied to the
`product` column. -/
def productKey (s : String) : String :=
  lowerStr (trimStr s)

/-- EAN rows joined to the order row `o` by
`left.merge(right[["product_key", "ean"]], on="product_key", how="left")`,
in right-frame order. -/
def matchesFor (eans : List EanRecord) (o : OrderRecord) : List EanRecord :=
  eans.filter (fun e => productKey e.product == productKey o.product)

/-- Matched output row built from an order row and a joined EAN row: the
`base_url` column is overwritten with `normalize_base` and the `url` column
is `base_url + "/01/" + ean + "/10/" + purchase_order`. -/
def mkMatched (o : OrderRecord) (e : EanRecord) : MatchedRow :=
  { purchase_order := o.purchase_order
    product := o.product
    base_url := rstripSlash o.base_url
    ean := e.ean
    url := rstripSlash o.base_url ++ "/01/" ++ e.ean ++ "/10/" ++ o.purchase_order }

/-- Matched part of the left join, before sorting: every order row, in input
order, expanded by its EAN matches in input order. -/
def matchedUnsorted (orders : List OrderRecord) (eans : List EanRecord) :
    List MatchedRow :=
  orders.flatMap (fun o => (matchesFor eans o).map (mkMatched o))

/-- Projection of an order row onto the `unmatched` output columns
`["purchase_order", "product", "base_url"]`. -/
def unmatchedProj (o : OrderRecord) : UnmatchedRow :=
  { purchase_order := o.purchase_order
    product := o.product
    base_url := o.base_url }

/-- First-occurrence de-duplication with an accumulator of already seen
elements (`DataFrame.drop_duplicates()`). -/
def dropDupAux {α : Type} [DecidableEq α] (seen : List α) : List α → List α
  | [] => []
  | a :: l => if a ∈ seen then dropDupAux seen l else a :: dropDupAux (a :: seen) l

/-- First-occurrence de-duplication (`DataFrame.drop_duplicates()`). -/
def dropDuplicates {α : Type} [DecidableEq α] (l : List α) : List α :=
  dropDupAux [] l

/-- Unmatched output of `build_urls`: join-result rows with no `ean`, i.e.
order rows whose key matches no EAN row, projected and de-duplicated. -/
def unmatchedRows (orders : List OrderRecord) (eans : List EanRecord) :
    List UnmatchedRow :=
  dropDuplicates ((orders.filter (fun o => (matchesFor eans o).isEmpty)).map unmatchedProj)

/-- Strict lexicographic comparison of character lists by code point, the
comparison Python applies to strings. -/
def charListLT : List Char → List Char → Bool
  | _, [] => false
  | [], _ :: _ => true
  | a :: as, b :: bs =>
    if a.val < b.val then true
    else if b.val < a.val then false
    else charListLT as bs

/-- Code-point comparison of strings (Python string comparison). -/
def strLT (a b : String) : Bool :=
  charListLT a.data b.data

/-- Sort key order of `sort_values(["product", "purchase_order", "ean"])`:
lexicographic on the key triple with code-point string comparison, ties
(equal key triples) accepted so that sorting is stable. -/
def rowLE (a b : MatchedRow) : Bool :=
  if strLT a.product b.product then true
  else if strLT b.product a.product then false
  else if strLT a.purchase_order b.purchase_order then true
  else if strLT b.purchase_order a.purchase_order then false
  else if strLT a.ean b.ean then true
  else if strLT b.ean a.ean then false
  else true

/-- Join engine `build_urls`: returns the sorted matched table and the
de-duplicated unmatched table. -/
def build_urls (orders : List OrderRecord) (eans : List EanRecord) :
    List MatchedRow × List UnmatchedRow :=
  (List.insertionSort (fun a b => rowLE a b = true) (matchedUnsorted orders eans),
    unmatchedRows orders eans)

/-- Column of an input table: a header cell and the cells below it. -/
structure Column where
  name : String
  values : List String
deriving DecidableEq

/-- Key under which a column is entered into `lower_map` inside
`get_column`: `str(c).strip().lower()`. -/
def columnKey (s : String) : String :=
  lowerStr (trimStr s)

/-- Lookup in `lower_map`: the dict comprehension lets a later column
overwrite an earlier one with the same key, so the match is searched from
the right end of the column list. -/
def lookupColumn (cols : List Column) (key : String) : Option Column :=
  cols.reverse.find? (fun c => columnKey c.name == key)

/-- Alias loop of `get_column`: try each preferred name in order, lowered,
against `lower_map`. -/
def resolveAlias (cols : List Column) : List String → Option Column
  | [] => none
  | n :: rest =>
    match lookupColumn cols (lowerStr n) with
    | some c => some c
    | none => resolveAlias cols rest

/-- Column resolution `get_column`: alias match first, then positional
fallback when `0 <= fallback_index < df.shape[1]`, otherwise the
`MissingColumnError` failure of the spec (a `KeyError` in the script). -/
def get_column (cols : List Column) (preferred : List String)
    (fallbackIndex : Int) : Except String Column :=
  match resolveAlias cols preferred with
  | some c => Except.ok c
  | none =>
    if h : 0 ≤ fallbackIndex ∧ fallbackIndex < (cols.length : Int) then
      Except.ok (cols.get ⟨fallbackIndex.toNat, by omega⟩)
    else
      Except.error "MissingColumnError"

/-- Alias list for the `product` column in `read_orders` and `read_eans`. -/
def productAliases : List String :=
  ["product", "product_code", "sku"]

/-- Output sheet: a name and the data rows written under the header. -/
structure Sheet where
  name : String
  rows : List (List String)
deriving DecidableEq

/-- Cells of a matched row in output column order. -/
def matchedCells (r : MatchedRow) : List String :=
  [r.purchase_order, r.product, r.base_url, r.ean, r.url]

/-- Cells of an unmatched row in output column order. -/
def unmatchedCells (u : UnmatchedRow) : List String :=
  [u.purchase_order, u.product, u.base_url]

/-- Sheet-writing step of `process_pair`: the `urls` sheet is always
written; the `unmatched_orders` sheet only when the unmatched table is
non-empty. -/
def writeOutput (urls : List MatchedRow) (unmatched : List UnmatchedRow) :
    List Sheet :=
  { name := "urls", rows := urls.map matchedCells } ::
    (if unmatched.isEmpty then []
     else [{ name := "unmatched_orders", rows := unmatched.map unmatchedCells }])

/-- Content of the output workbook produced by `process_pair` from already
normalized inputs. -/
def process_pair (orders : List OrderRecord) (eans : List EanRecord) :
    List Sheet :=
  writeOutput (build_urls orders eans).1 (build_urls orders eans).2

/-- Stem of a file name (`pathlib.PurePath.stem`): the name up to its last
dot, provided that dot is neither the first character nor the last. -/
def stem (name : String) : String :=
  let cs := name.data
  match ((List.range cs.length).filter (fun i => cs.getD i ' ' == '.')).getLast? with
  | none => name
  | some i => if 0 < i ∧ i < cs.length - 1 then String.mk (cs.take i) else name

/-- Dict insertion with Python semantics: an existing key keeps its position
and gets the new value, a new key is appended. -/
def insertAssoc (m : List (String × String)) (k v : String) :
    List (String × String) :=
  if m.any (fun p => p.1 == k) then
    m.map (fun p => if p.1 == k then (k, v) else p)
  else
    m ++ [(k, v)]

/-- Classification loop of `find_file_pairs`: builds the `eans_files` and
`orders_files` dicts keyed by the case-sensitive base, recognizing the
`_eans` / `_orders` suffix on the lowered stem. -/
def buildDicts :
    List (String × String) × List (String × String) → List String →
      List (String × String) × List (String × String)
  | acc, [] => acc
  | (eansD, ordersD), path :: rest =>
    let nm := stem path
    if strEndsWith (lowerStr nm) "_eans" then
      buildDicts (insertAssoc eansD (dropRightStr nm 5) path, ordersD) rest
    else if strEndsWith (lowerStr nm) "_orders" then
      buildDicts (eansD, insertAssoc ordersD (dropRightStr nm 7) path) rest
    else
      buildDicts (eansD, ordersD) rest

/-- File-pair discovery `find_file_pairs` over a directory listing: keep the
`*.xlsx` names, classify them, and pair each eans entry with the orders
entry of the exactly equal base. Returns `(eans_path, orders_path, base)`
triples. -/
def find_file_pairs (names : List String) : List (String × String × String) :=
  let filtered := names.filter (fun n => strEndsWith n ".xlsx")
  let dicts := buildDicts ([], []) filtered
  dicts.1.filterMap (fun be =>
    match dicts.2.find? (fun p => p.1 == be.1) with
    | some op => some (be.2, op.2, be.1)
    | none => none)

/-- Projection of a matched output row back onto
`(purchase_order, product, base_url)`. -/
def projMatched (r : MatchedRow) : String × String × String :=
  (r.purchase_order, r.product, r.base_url)

/-- Projection of an unmatched output row onto
`(purchase_order, product, base_url)`. -/
def projUnmatched (u : UnmatchedRow) : String × String × String :=
  (u.purchase_order, u.product, u.base_url)

/-- Projection of an input order row onto
`(purchase_order, product, base_url)`. -/
def projOrder (o : OrderRecord) : String × String × String :=
  (o.purchase_order, o.product, o.base_url)

/-- Normalization of a projected triple that strips trailing slashes from the
`base_url` component, for comparisons across the slash-stripping that
`build_urls` applies to matched rows. -/
def normTriple (t : String × String × String) : String × String × String :=
  (t.1, t.2.1, rstripSlash t.2.2)

/-! Helper lemmas about the embedded operations. -/

theorem dropWhile_idem {α : Type} (p : α → Bool) (l : List α) :
    (l.dropWhile p).dropWhile p = l.dropWhile p := by
  induction l with
  | nil => rfl
  | cons a t ih =>
    by_cases h : p a
    · simp [List.dropWhile_cons, h, ih]
    · simp [List.dropWhile_cons, h]

theorem rstripSlash_idem (s : String) : rstripSlash (rstripSlash s) = rstripSlash s := by
  unfold rstripSlash
  apply congrArg String.mk
  apply congrArg List.reverse
  show ((String.mk ((s.data.reverse.dropWhile (fun c => c == '/')).reverse)).data.reverse.dropWhile (fun c => c == '/')) = _
  rw [show (String.mk ((s.data.reverse.dropWhile (fun c => c == '/')).reverse)).data = (s.data.reverse.dropWhile (fun c => c == '/')).reverse from rfl]
  rw [List.reverse_reverse]
  exact dropWhile_idem _ _

theorem mem_dropDupAux {α : Type} [DecidableEq α] (a : α) :
    ∀ (l seen : List α), a ∈ dropDupAux seen l ↔ a ∈ l ∧ a ∉ seen := by
  intro l
  induction l with
  | nil => intro seen; simp [dropDupAux]
  | cons b t ih =>
    intro seen
    by_cases hb : b ∈ seen
    · rw [show dropDupAux seen (b :: t) = dropDupAux seen t from by simp [dropDupAux, hb], ih]
      by_cases hab : a = b
      · subst hab; simp [hb]
      · simp [hab]
    · rw [show dropDupAux seen (b :: t) = b :: dropDupAux (b :: seen) t from by
        simp [dropDupAux, hb]]
      by_cases hab : a = b
      · subst hab; simp [hb]
      · simp only [List.mem_cons, ih, hab, false_or]

theorem mem_dropDuplicates {α : Type} [DecidableEq α] (a : α) (l : List α) :
    a ∈ dropDuplicates l ↔ a ∈ l := by
  rw [dropDuplicates, mem_dropDupAux]
  simp

theorem nodup_dropDupAux {α : Type} [DecidableEq α] :
    ∀ (l seen : List α), (dropDupAux seen l).Nodup := by
  intro l
  induction l with
  | nil => intro seen; simp [dropDupAux]
  | cons b t ih =>
    intro seen
    by_cases hb : b ∈ seen
    · rw [show dropDupAux seen (b :: t) = dropDupAux seen t from by simp [dropDupAux, hb]]
      exact ih seen
    · rw [show dropDupAux seen (b :: t) = b :: dropDupAux (b :: seen) t from by
        simp [dropDupAux, hb]]
      refine List.nodup_cons.mpr ⟨?_, ih (b :: seen)⟩
      intro hmem
      exact ((mem_dropDupAux b t (b :: seen)).mp hmem).2 (List.mem_cons_self b seen)

theorem nodup_dropDuplicates {α : Type} [DecidableEq α] (l : List α) :
    (dropDuplicates l).Nodup :=
  nodup_dropDupAux l []

theorem mem_matched_iff (orders : List OrderRecord) (eans : List EanRecord)
    (r : MatchedRow) :
    r ∈ (build_urls orders eans).1 ↔
      ∃ o ∈ orders, ∃ e ∈ eans,
        productKey e.product = productKey o.product ∧ r = mkMatched o e := by
  unfold build_urls
  rw [List.mem_insertionSort]
  unfold matchedUnsorted matchesFor
  simp only [List.mem_flatMap, List.mem_map, List.mem_filter, beq_iff_eq]
  constructor
  · rintro ⟨o, ho, e, ⟨⟨he, hk⟩, hr⟩⟩
    exact ⟨o, ho, e, he, hk, hr.symm⟩
  · rintro ⟨o, ho, e, he, hk, hr⟩
    exact ⟨o, ho, e, ⟨⟨he, hk⟩, hr.symm⟩⟩

theorem mem_unmatched_iff (orders : List OrderRecord) (eans : List EanRecord)
    (u : UnmatchedRow) :
    u ∈ (build_urls orders eans).2 ↔
      ∃ o ∈ orders, matchesFor eans o = [] ∧ u = unmatchedProj o := by
  unfold build_urls unmatchedRows
  rw [mem_dropDuplicates]
  simp only [List.mem_map, List.mem_filter, List.isEmpty_iff]
  constructor
  · rintro ⟨o, ⟨ho, hnil⟩, hu⟩
    exact ⟨o, ho, hnil, hu.symm⟩
  · rintro ⟨o, ho, hnil, hu⟩
    exact ⟨o, ⟨ho, hnil⟩, hu.symm⟩

theorem matchesFor_perm {eans eans2 : List EanRecord} (he : eans.Perm eans2)
    (o : OrderRecord) : (matchesFor eans o).Perm (matchesFor eans2 o) :=
  he.filter _

theorem matchesFor_eq_nil_congr {eans eans2 : List EanRecord}
    (he : eans.Perm eans2) (o : OrderRecord) :
    matchesFor eans o = [] ↔ matchesFor eans2 o = [] := by
  constructor
  · intro h
    have hp := matchesFor_perm he o
    rw [h] at hp
    exact hp.symm.eq_nil
  · intro h
    have hp := matchesFor_perm he o
    rw [h] at hp
    exact hp.eq_nil

theorem matchedUnsorted_perm {orders orders2 : List OrderRecord}
    {eans eans2 : List EanRecord} (ho : orders.Perm orders2)
    (he : eans.Perm eans2) :
    (matchedUnsorted orders eans).Perm (matchedUnsorted orders2 eans2) := by
  unfold matchedUnsorted
  refine List.Perm.trans (List.Perm.flatMap_left orders (fun o _ => ?_))
    (ho.flatMap_right _)
  exact (matchesFor_perm he o).map _

theorem unmatchedRows_perm {orders orders2 : List OrderRecord}
    {eans eans2 : List EanRecord} (ho : orders.Perm orders2)
    (he : eans.Perm eans2) :
    (unmatchedRows orders eans).Perm (unmatchedRows orders2 eans2) := by
  unfold unmatchedRows
  apply (List.perm_ext_iff_of_nodup (nodup_dropDuplicates _)
    (nodup_dropDuplicates _)).mpr
  intro u
  rw [mem_dropDuplicates, mem_dropDuplicates]
  simp only [List.mem_map, List.mem_filter, List.isEmpty_iff]
  constructor
  · rintro ⟨o, ⟨ho1, hnil⟩, hu⟩
    exact ⟨o, ⟨ho.mem_iff.mp ho1, (matchesFor_eq_nil_congr he o).mp hnil⟩, hu⟩
  · rintro ⟨o, ⟨ho1, hnil⟩, hu⟩
    exact ⟨o, ⟨ho.mem_iff.mpr ho1, (matchesFor_eq_nil_congr he o).mpr hnil⟩, hu⟩

theorem lookupColumn_eq_none_iff (cols : List Column) (key : String) :
    lookupColumn cols key = none ↔ ∀ c ∈ cols, columnKey c.name ≠ key := by
  unfold lookupColumn
  rw [List.find?_eq_none]
  simp [List.mem_reverse]

theorem lookupColumn_eq_some (cols : List Column) (key : String) (c : Column)
    (h : lookupColumn cols key = some c) :
    c ∈ cols ∧ columnKey c.name = key := by
  unfold lookupColumn at h
  have h1 := List.find?_some h
  have h2 := List.mem_of_find?_eq_some h
  exact ⟨List.mem_reverse.mp h2, by simpa using h1⟩

theorem resolveAlias_eq_none_iff (cols : List Column) (pref : List String) :
    resolveAlias cols pref = none ↔
      ∀ n ∈ pref, ∀ c ∈ cols, columnKey c.name ≠ lowerStr n := by
  induction pref with
  | nil => simp [resolveAlias]
  | cons n rest ih =>
    rw [show resolveAlias cols (n :: rest) =
        (match lookupColumn cols (lowerStr n) with
          | some c => some c
          | none => resolveAlias cols rest) from rfl]
    cases hl : lookupColumn cols (lowerStr n) with
    | some c =>
      simp only [List.mem_cons]
      constructor
      · intro h; exact absurd h (by simp)
      · intro h
        obtain ⟨hm, hk⟩ := lookupColumn_eq_some cols (lowerStr n) c hl
        exact absurd hk (h n (Or.inl rfl) c hm)
    | none =>
      rw [ih]
      have hnone := (lookupColumn_eq_none_iff cols (lowerStr n)).mp hl
      constructor
      · intro h n2 hn2 c hc
        rcases List.mem_cons.mp hn2 with h2 | h2
        · subst h2; exact hnone c hc
        · exact h n2 h2 c hc
      · intro h n2 hn2 c hc
        exact h n2 (List.mem_cons_of_mem _ hn2) c hc

theorem resolveAlias_eq_some (cols : List Column) (pref : List String)
    (c : Column) (h : resolveAlias cols pref = some c) :
    ∃ n ∈ pref, c ∈ cols ∧ columnKey c.name = lowerStr n := by
  induction pref with
  | nil => simp [resolveAlias] at h
  | cons n rest ih =>
    rw [show resolveAlias cols (n :: rest) =
        (match lookupColumn cols (lowerStr n) with
          | some c => some c
          | none => resolveAlias cols rest) from rfl] at h
    cases hl : lookupColumn cols (lowerStr n) with
    | some c2 =>
      rw [hl] at h
      have h3 : (some c2 : Option Column) = some c := h
      have h2 : c2 = c := Option.some.inj h3
      rw [h2] at hl
      obtain ⟨hm, hk⟩ := lookupColumn_eq_some cols (lowerStr n) c hl
      exact ⟨n, List.mem_cons_self n rest, hm, hk⟩
    | none =>
      rw [hl] at h
      obtain ⟨n2, hn2, hrest⟩ := ih h
      exact ⟨n2, List.mem_cons_of_mem _ hn2, hrest⟩

theorem mem_matchesFor_iff (eans : List EanRecord) (o : OrderRecord)
    (e : EanRecord) :
    e ∈ matchesFor eans o ↔
      e ∈ eans ∧ productKey e.product = productKey o.product := by
  unfold matchesFor
  simp [List.mem_filter]

/-- C1: every matched output row's `url` equals the row's `base_url` with all
trailing slash characters stripped, concatenated with "/01/", the row's
`ean`, "/10/", and the row's `purchase_order`. -/
theorem c1_matched_url_composition (orders : List OrderRecord)
    (eans : List EanRecord) (r : MatchedRow)
    (hr : r ∈ (build_urls orders eans).1) :
    r.url = rstripSlash r.base_url ++ "/01/" ++ r.ean ++ "/10/" ++ r.purchase_order := by
  obtain ⟨o, ho, e, he, hk, rfl⟩ := (mem_matched_iff orders eans r).mp hr
  show rstripSlash o.base_url ++ "/01/" ++ e.ean ++ "/10/" ++ o.purchase_order =
    rstripSlash (rstripSlash o.base_url) ++ "/01/" ++ e.ean ++ "/10/" ++ o.purchase_order
  rw [rstripSlash_idem]

/-- Witness for C1: the matched row produced from the spec's worked example
satisfies the URL composition. -/
theorem c1_matched_url_composition_witness :
    (mkMatched ⟨"PO1", "P1", "http://x.com/"⟩ ⟨"P1", "0012345"⟩).url =
      rstripSlash (mkMatched ⟨"PO1", "P1", "http://x.com/"⟩ ⟨"P1", "0012345"⟩).base_url ++
        "/01/" ++ (mkMatched ⟨"PO1", "P1", "http://x.com/"⟩ ⟨"P1", "0012345"⟩).ean ++
        "/10/" ++ (mkMatched ⟨"PO1", "P1", "http://x.com/"⟩ ⟨"P1", "0012345"⟩).purchase_order :=
  c1_matched_url_composition [⟨"PO1", "P1", "http://x.com/"⟩] [⟨"P1", "0012345"⟩]
    (mkMatched ⟨"PO1", "P1", "http://x.com/"⟩ ⟨"P1", "0012345"⟩) (by decide)

/-- C2 as stated is false: with one order carrying a trailing slash in its
base URL and two EAN rows sharing its product key, the matched rows project
to the slash-stripped triple twice, while the input order multiset holds the
original triple once. -/
theorem c2_projection_counterexample :
    ¬ (((build_urls [⟨"PO1", "P1", "http://x.com/"⟩] [⟨"P1", "E1"⟩, ⟨"P1", "E2"⟩]).1.map projMatched ++
        (build_urls [⟨"PO1", "P1", "http://x.com/"⟩] [⟨"P1", "E1"⟩, ⟨"P1", "E2"⟩]).2.map projUnmatched).Perm
      (([⟨"PO1", "P1", "http://x.com/"⟩] : List OrderRecord).map projOrder)) := by
  intro h
  exact absurd h.length_eq (by decide)

/-- C2 amended: after additionally stripping trailing slashes from the
`base_url` component on both sides, the union of matched and unmatched
output projected to `(purchase_order, product, base_url)` equals the
projected input order set as a set (multiplicity is not preserved: matched
rows multiply per matching EAN row and unmatched rows are de-duplicated). -/
theorem c2_projection_set_amended (orders : List OrderRecord)
    (eans : List EanRecord) (p : String × String × String) :
    p ∈ ((build_urls orders eans).1.map (fun r => normTriple (projMatched r)) ++
        (build_urls orders eans).2.map (fun u => normTriple (projUnmatched u))) ↔
      p ∈ orders.map (fun o => normTriple (projOrder o)) := by
  rw [List.mem_append]
  constructor
  · rintro (hm | hu)
    · obtain ⟨r, hr, rfl⟩ := List.mem_map.mp hm
      obtain ⟨o, ho, e, he, hk, rfl⟩ := (mem_matched_iff orders eans r).mp hr
      refine List.mem_map.mpr ⟨o, ho, ?_⟩
      show normTriple (projOrder o) = normTriple (projMatched (mkMatched o e))
      simp [normTriple, projOrder, projMatched, mkMatched, rstripSlash_idem]
    · obtain ⟨u, hu2, rfl⟩ := List.mem_map.mp hu
      obtain ⟨o, ho, hnil, rfl⟩ := (mem_unmatched_iff orders eans u).mp hu2
      exact List.mem_map.mpr ⟨o, ho, rfl⟩
  · intro hp
    obtain ⟨o, ho, rfl⟩ := List.mem_map.mp hp
    by_cases hnil : matchesFor eans o = []
    · right
      refine List.mem_map.mpr ⟨unmatchedProj o, ?_, rfl⟩
      exact (mem_unmatched_iff orders eans _).mpr ⟨o, ho, hnil, rfl⟩
    · left
      obtain ⟨e, he⟩ := List.exists_mem_of_ne_nil _ hnil
      obtain ⟨he2, hk⟩ := (mem_matchesFor_iff eans o e).mp he
      refine List.mem_map.mpr ⟨mkMatched o e, ?_, ?_⟩
      · exact (mem_matched_iff orders eans _).mpr ⟨o, ho, e, he2, hk, rfl⟩
      · show normTriple (projMatched (mkMatched o e)) = normTriple (projOrder o)
        simp [normTriple, projOrder, projMatched, mkMatched, rstripSlash_idem]

/-- C3: the set of purchase order values across matched and unmatched output
equals the set of purchase order values of the input orders. -/
theorem c3_purchase_order_values_preserved (orders : List OrderRecord)
    (eans : List EanRecord) (po : String) :
    po ∈ ((build_urls orders eans).1.map MatchedRow.purchase_order ++
        (build_urls orders eans).2.map UnmatchedRow.purchase_order) ↔
      po ∈ orders.map OrderRecord.purchase_order := by
  rw [List.mem_append]
  constructor
  · rintro (hm | hu)
    · obtain ⟨r, hr, rfl⟩ := List.mem_map.mp hm
      obtain ⟨o, ho, e, he, hk, rfl⟩ := (mem_matched_iff orders eans r).mp hr
      exact List.mem_map.mpr ⟨o, ho, rfl⟩
    · obtain ⟨u, hu2, rfl⟩ := List.mem_map.mp hu
      obtain ⟨o, ho, hnil, rfl⟩ := (mem_unmatched_iff orders eans u).mp hu2
      exact List.mem_map.mpr ⟨o, ho, rfl⟩
  · intro hp
    obtain ⟨o, ho, rfl⟩ := List.mem_map.mp hp
    by_cases hnil : matchesFor eans o = []
    · exact Or.inr (List.mem_map.mpr ⟨unmatchedProj o,
        (mem_unmatched_iff orders eans _).mpr ⟨o, ho, hnil, rfl⟩, rfl⟩)
    · obtain ⟨e, he⟩ := List.exists_mem_of_ne_nil _ hnil
      obtain ⟨he2, hk⟩ := (mem_matchesFor_iff eans o e).mp he
      exact Or.inl (List.mem_map.mpr ⟨mkMatched o e,
        (mem_matched_iff orders eans _).mpr ⟨o, ho, e, he2, hk, rfl⟩, rfl⟩)

/-- C5 as stated is false: swapping two unmatched input orders is a
permutation of the inputs, yet it changes the unmatched output rows (their
order follows the input order; only the matched table is sorted, and even
there only by the key triple). -/
theorem c5_order_sensitivity_counterexample :
    ([⟨"PO2", "P2", "http://b"⟩, ⟨"PO1", "P1", "http://a"⟩] : List OrderRecord).Perm
        [⟨"PO1", "P1", "http://a"⟩, ⟨"PO2", "P2", "http://b"⟩] ∧
      (build_urls [⟨"PO1", "P1", "http://a"⟩, ⟨"PO2", "P2", "http://b"⟩] []).2 ≠
        (build_urls [⟨"PO2", "P2", "http://b"⟩, ⟨"PO1", "P1", "http://a"⟩] []).2 := by
  constructor
  · exact List.Perm.swap _ _ _
  · decide

/-- C5 amended: permuting the input rows leaves the matched output and the
unmatched output unchanged up to order (the same multisets of rows); the
ordering of unmatched rows, and of matched rows tied on the sort key, can
still depend on the input order. -/
theorem c5_output_content_perm_invariant (orders orders2 : List OrderRecord)
    (eans eans2 : List EanRecord) (ho : orders.Perm orders2)
    (he : eans.Perm eans2) :
    (build_urls orders eans).1.Perm (build_urls orders2 eans2).1 ∧
      (build_urls orders eans).2.Perm (build_urls orders2 eans2).2 := by
  constructor
  · exact ((List.perm_insertionSort _ _).trans (matchedUnsorted_perm ho he)).trans
      (List.perm_insertionSort _ _).symm
  · exact unmatchedRows_perm ho he

/-- Witness for C5 amended at a concrete pair of permuted inputs. -/
theorem c5_output_content_perm_invariant_witness :
    (build_urls [⟨"PO1", "P1", "http://a"⟩, ⟨"PO2", "P2", "http://b"⟩]
        [⟨"P1", "E1"⟩]).1.Perm
      (build_urls [⟨"PO2", "P2", "http://b"⟩, ⟨"PO1", "P1", "http://a"⟩]
        [⟨"P1", "E1"⟩]).1 ∧
    (build_urls [⟨"PO1", "P1", "http://a"⟩, ⟨"PO2", "P2", "http://b"⟩]
        [⟨"P1", "E1"⟩]).2.Perm
      (build_urls [⟨"PO2", "P2", "http://b"⟩, ⟨"PO1", "P1", "http://a"⟩]
        [⟨"P1", "E1"⟩]).2 :=
  c5_output_content_perm_invariant
    [⟨"PO1", "P1", "http://a"⟩, ⟨"PO2", "P2", "http://b"⟩]
    [⟨"PO2", "P2", "http://b"⟩, ⟨"PO1", "P1", "http://a"⟩]
    [⟨"P1", "E1"⟩] [⟨"P1", "E1"⟩] (List.Perm.swap _ _ _) (List.Perm.refl _)

/-- C6: an order row and an EAN row contribute a joined row exactly when
their product values agree after whitespace trimming and lower-casing; every
matched output row arises from such a pair. -/
theorem c6_join_iff_trimmed_lowercased_equal (orders : List OrderRecord)
    (eans : List EanRecord) :
    (∀ o ∈ orders, ∀ e ∈ eans,
        lowerStr (trimStr o.product) = lowerStr (trimStr e.product) →
          mkMatched o e ∈ (build_urls orders eans).1) ∧
      (∀ r ∈ (build_urls orders eans).1,
        ∃ o ∈ orders, ∃ e ∈ eans,
          lowerStr (trimStr o.product) = lowerStr (trimStr e.product) ∧
            r = mkMatched o e) := by
  constructor
  · intro o ho e he hkey
    exact (mem_matched_iff orders eans _).mpr ⟨o, ho, e, he, hkey.symm, rfl⟩
  · intro r hr
    obtain ⟨o, ho, e, he, hk, hr2⟩ := (mem_matched_iff orders eans r).mp hr
    exact ⟨o, ho, e, he, hk.symm, hr2⟩

/-- Witness for C6: the claim's particular instance, an order with product
"ABC " joining an EAN record with product "abc". -/
theorem c6_join_iff_trimmed_lowercased_equal_witness :
    mkMatched ⟨"PO1", "ABC ", "http://x.com"⟩ ⟨"abc", "123"⟩ ∈
      (build_urls [⟨"PO1", "ABC ", "http://x.com"⟩] [⟨"abc", "123"⟩]).1 :=
  (c6_join_iff_trimmed_lowercased_equal [⟨"PO1", "ABC ", "http://x.com"⟩]
      [⟨"abc", "123"⟩]).1
    ⟨"PO1", "ABC ", "http://x.com"⟩ (by decide) ⟨"abc", "123"⟩ (by decide)
    (by decide)

/-- C8: `build_urls` is a total function: on every pair of normalized inputs
it returns a matched/unmatched pair of tables, and an order row whose
product key matches no EAN row lands in the unmatched table instead of
producing a failure. -/
theorem c8_total_and_no_match_is_unmatched (orders : List OrderRecord)
    (eans : List EanRecord) :
    ∃ m u, build_urls orders eans = (m, u) ∧
      ∀ o ∈ orders,
        (∀ e ∈ eans, productKey e.product ≠ productKey o.product) →
          unmatchedProj o ∈ u := by
  refine ⟨(build_urls orders eans).1, (build_urls orders eans).2, rfl, ?_⟩
  intro o ho hno
  apply (mem_unmatched_iff orders eans _).mpr
  refine ⟨o, ho, ?_, rfl⟩
  unfold matchesFor
  rw [List.filter_eq_nil_iff]
  intro e he
  simp only [beq_iff_eq]
  exact hno e he

/-- Witness for C8: the spec's unmatched worked example. -/
theorem c8_total_and_no_match_is_unmatched_witness :
    ∃ m u, build_urls [⟨"PO2", "P9", "http://y.com"⟩] [⟨"P1", "0012345"⟩] = (m, u) ∧
      ∀ o ∈ ([⟨"PO2", "P9", "http://y.com"⟩] : List OrderRecord),
        (∀ e ∈ ([⟨"P1", "0012345"⟩] : List EanRecord),
            productKey e.product ≠ productKey o.product) →
          unmatchedProj o ∈ u :=
  c8_total_and_no_match_is_unmatched [⟨"PO2", "P9", "http://y.com"⟩]
    [⟨"P1", "0012345"⟩]

theorem columnKey_of_trimmed (cols : List Column)
    (htrim : ∀ c ∈ cols, trimStr c.name = c.name) :
    ∀ c ∈ cols, columnKey c.name = lowerStr c.name := by
  intro c hc
  show lowerStr (trimStr c.name) = lowerStr c.name
  rw [htrim c hc]

/-- C4: on a table whose headers are already whitespace-trimmed (which
`normalize_column_names` guarantees before every `get_column` call),
resolution fails with `MissingColumnError` exactly when no accepted alias
matches a column name case-insensitively and the positional fallback index
is not a valid column index; in every other case a column is returned. -/
theorem c4_get_column_missing_iff (cols : List Column) (preferred : List String)
    (i : Int) (htrim : ∀ c ∈ cols, trimStr c.name = c.name) :
    (get_column cols preferred i = Except.error "MissingColumnError" ↔
      ((∀ n ∈ preferred, ∀ c ∈ cols, lowerStr n ≠ lowerStr c.name) ∧
        ¬(0 ≤ i ∧ i < (cols.length : Int)))) ∧
    (¬((∀ n ∈ preferred, ∀ c ∈ cols, lowerStr n ≠ lowerStr c.name) ∧
        ¬(0 ≤ i ∧ i < (cols.length : Int))) →
      ∃ c, get_column cols preferred i = Except.ok c) := by
  have hkey := columnKey_of_trimmed cols htrim
  have hcond : (∀ n ∈ preferred, ∀ c ∈ cols, columnKey c.name ≠ lowerStr n) ↔
      (∀ n ∈ preferred, ∀ c ∈ cols, lowerStr n ≠ lowerStr c.name) := by
    constructor
    · intro h n hn c hc
      have h2 := h n hn c hc
      rw [hkey c hc] at h2
      exact fun he => h2 he.symm
    · intro h n hn c hc
      rw [hkey c hc]
      exact fun he => h n hn c hc he.symm
  constructor
  · constructor
    · intro herr
      unfold get_column at herr
      cases hra : resolveAlias cols preferred with
      | some c =>
        rw [hra] at herr
        have herr2 : (Except.ok c : Except String Column) =
            Except.error "MissingColumnError" := herr
        exact Except.noConfusion herr2
      | none =>
        rw [hra] at herr
        by_cases hc2 : 0 ≤ i ∧ i < (cols.length : Int)
        · rw [dif_pos hc2] at herr
          exact Except.noConfusion herr
        · exact ⟨hcond.mp ((resolveAlias_eq_none_iff cols preferred).mp hra), hc2⟩
    · rintro ⟨hnoalias, hbad⟩
      have hra : resolveAlias cols preferred = none :=
        (resolveAlias_eq_none_iff cols preferred).mpr (hcond.mpr hnoalias)
      unfold get_column
      rw [hra, dif_neg hbad]
  · intro hnot
    unfold get_column
    cases hra : resolveAlias cols preferred with
    | some c =>
      exact ⟨c, rfl⟩
    | none =>
      by_cases hc2 : 0 ≤ i ∧ i < (cols.length : Int)
      · rw [dif_pos hc2]
        exact ⟨_, rfl⟩
      · exact absurd ⟨hcond.mp ((resolveAlias_eq_none_iff cols preferred).mp hra),
          hc2⟩ hnot

/-- Witness for C4: a one-column table with no matching alias and an
out-of-range fallback index fails with `MissingColumnError`. -/
theorem c4_get_column_missing_iff_witness :
    get_column [⟨"x", []⟩] ["y"] 5 = Except.error "MissingColumnError" :=
  ((c4_get_column_missing_iff [⟨"x", []⟩] ["y"] 5 (by decide)).1).mpr (by decide)

/-- C7: with trimmed headers and no `product` or `product_code` column, a
column whose header lower-cases to "sku" resolves for the product field; if
no product alias at all is present, the column at positional index 1
resolves instead. -/
theorem c7_sku_alias_and_positional_fallback (cols : List Column)
    (htrim : ∀ c ∈ cols, trimStr c.name = c.name) :
    ((∀ c ∈ cols, lowerStr c.name ≠ "product" ∧ lowerStr c.name ≠ "product_code") →
      (∃ c ∈ cols, lowerStr c.name = "sku") →
      ∃ c, get_column cols productAliases 1 = Except.ok c ∧ lowerStr c.name = "sku") ∧
    ((∀ c ∈ cols, lowerStr c.name ≠ "product" ∧ lowerStr c.name ≠ "product_code" ∧
        lowerStr c.name ≠ "sku") →
      ∀ h2 : 1 < cols.length,
        get_column cols productAliases 1 = Except.ok (cols.get ⟨1, h2⟩)) := by
  have hkey := columnKey_of_trimmed cols htrim
  constructor
  · intro hnp hsku
    have h1 : lookupColumn cols (lowerStr "product") = none := by
      apply (lookupColumn_eq_none_iff _ _).mpr
      intro c hc
      rw [hkey c hc, show lowerStr "product" = "product" from by decide]
      exact (hnp c hc).1
    have h2 : lookupColumn cols (lowerStr "product_code") = none := by
      apply (lookupColumn_eq_none_iff _ _).mpr
      intro c hc
      rw [hkey c hc, show lowerStr "product_code" = "product_code" from by decide]
      exact (hnp c hc).2
    obtain ⟨c0, hc0, hsk⟩ := hsku
    have hsome : (lookupColumn cols (lowerStr "sku")).isSome := by
      unfold lookupColumn
      rw [List.find?_isSome]
      refine ⟨c0, List.mem_reverse.mpr hc0, ?_⟩
      simp only [beq_iff_eq]
      rw [hkey c0 hc0, hsk]
      decide
    obtain ⟨c1, hc1⟩ := Option.isSome_iff_exists.mp hsome
    obtain ⟨hmem, hkeyc1⟩ := lookupColumn_eq_some cols (lowerStr "sku") c1 hc1
    have hra : resolveAlias cols productAliases = some c1 := by
      rw [show resolveAlias cols productAliases =
          (match lookupColumn cols (lowerStr "product") with
            | some c => some c
            | none => resolveAlias cols ["product_code", "sku"]) from rfl, h1]
      show resolveAlias cols ["product_code", "sku"] = some c1
      rw [show resolveAlias cols ["product_code", "sku"] =
          (match lookupColumn cols (lowerStr "product_code") with
            | some c => some c
            | none => resolveAlias cols ["sku"]) from rfl, h2]
      show resolveAlias cols ["sku"] = some c1
      rw [show resolveAlias cols ["sku"] =
          (match lookupColumn cols (lowerStr "sku") with
            | some c => some c
            | none => resolveAlias cols []) from rfl, hc1]
    refine ⟨c1, ?_, ?_⟩
    · unfold get_column
      rw [hra]
    · rw [hkey c1 hmem] at hkeyc1
      rw [hkeyc1]
      decide
  · intro hnone h2
    have hra : resolveAlias cols productAliases = none := by
      apply (resolveAlias_eq_none_iff _ _).mpr
      intro n hn c hc
      rw [hkey c hc]
      have hn2 : n = "product" ∨ n = "product_code" ∨ n = "sku" := by
        simpa [productAliases] using hn
      rcases hn2 with rfl | rfl | rfl
      · rw [show lowerStr "product" = "product" from by decide]
        exact (hnone c hc).1
      · rw [show lowerStr "product_code" = "product_code" from by decide]
        exact (hnone c hc).2.1
      · rw [show lowerStr "sku" = "sku" from by decide]
        exact (hnone c hc).2.2
    unfold get_column
    rw [hra]
    have hc2 : 0 ≤ (1 : Int) ∧ (1 : Int) < (cols.length : Int) :=
      ⟨by decide, by exact_mod_cast h2⟩
    rw [dif_pos hc2]
    rfl

/-- Witness for C7: the header "SKU" resolves for the product field. -/
theorem c7_sku_alias_and_positional_fallback_witness :
    ∃ c, get_column [⟨"id", []⟩, ⟨"SKU", ["a"]⟩] productAliases 1 = Except.ok c ∧
      lowerStr c.name = "sku" :=
  (c7_sku_alias_and_positional_fallback [⟨"id", []⟩, ⟨"SKU", ["a"]⟩]
      (by decide)).1 (by decide) (by decide)

/-- C9: the output container always holds the sheet named "urls", and holds
the sheet named "unmatched_orders" exactly when the unmatched table is
non-empty. -/
theorem c9_output_sheet_names (urls : List MatchedRow)
    (unmatched : List UnmatchedRow) :
    "urls" ∈ (writeOutput urls unmatched).map Sheet.name ∧
      ("unmatched_orders" ∈ (writeOutput urls unmatched).map Sheet.name ↔
        unmatched ≠ []) := by
  unfold writeOutput
  cases unmatched with
  | nil => simp
  | cons u t => simp

/-- C10: discovery only considers `*.xlsx` names, recognizes the `_eans` and
`_orders` suffixes case-insensitively on the stem, but pairs two files only
when the remaining bases are equal as case-sensitive strings: "Foo_EANS" and
"foo_orders" are each recognized yet not paired. -/
theorem c10_pair_discovery (names : List String) :
    find_file_pairs names =
        find_file_pairs (names.filter (fun n => strEndsWith n ".xlsx")) ∧
      find_file_pairs ["Foo_EANS.xlsx", "Foo_orders.xlsx"] =
        [("Foo_EANS.xlsx", "Foo_orders.xlsx", "Foo")] ∧
      find_file_pairs ["foo_eans.xlsx", "foo_ORDERS.xlsx"] =
        [("foo_eans.xlsx", "foo_ORDERS.xlsx", "foo")] ∧
      find_file_pairs ["Foo_EANS.xlsx", "foo_orders.xlsx"] = [] := by
  refine ⟨?_, by decide, by decide, by decide⟩
  unfold find_file_pairs
  rw [List.filter_filter]
  simp only [Bool.and_self]

end GenerateUrls
